import Mathlib

/-!
Verification of the selection/highlighting core of the flow-diagram viewer
(`src/lib/highlighting-logic.ts`).

The TypeScript module is a collection of pure functions over node and edge
records of the hosting diagram library.  We embed it shallowly:

* JS `Set<string>` becomes `Finset String`.
* The nullable `selectedNodeId : string | null` becomes `Option String`;
  JS truthiness (`if (selectedNodeId)`) is `truthy`, which is `false` for
  `none` and for `some ""`.
* A JS style object (string-keyed record) becomes an association list
  `Style`; the spread `{...style, key: v}` is `styleSet`, which replaces the
  entry for `key` in place or appends it, matching object-spread semantics
  for records with unique keys.
* The fields of the library `Node` / `Edge` records that the module never
  reads or writes are abstracted into a single `other : String` payload
  carried through unchanged by the record spreads.
* Numeric style values (opacities, stroke widths) are rationals; the module
  performs no arithmetic on them, only selection and comparison.
-/

/-- A value stored in a JS style object: a number or a string. -/
inductive StyleVal where
  | num : ℚ → StyleVal
  | str : String → StyleVal
deriving DecidableEq, Repr

/-- A JS style object, as an association list from keys to values. -/
abbrev Style := List (String × StyleVal)

/-- Lookup of a style key (first matching entry). -/
def styleGet : Style → String → Option StyleVal
  | [], _ => none
  | p :: rest, k => if p.1 = k then some p.2 else styleGet rest k

/-- Object-spread update `{...st, k: v}`: replaces the entry for `k` if
present (keeping its position), appends it otherwise. -/
def styleSet : Style → String → StyleVal → Style
  | [], k, v => [(k, v)]
  | p :: rest, k, v => if p.1 = k then (k, v) :: rest else p :: styleSet rest k v

/-- A diagram node: identifier, category tag (`node.type`, possibly absent),
style object, and the remaining fields of the library record bundled as an
abstract payload the module never touches. -/
structure Node where
  id : String
  type : Option String
  style : Style
  other : String
deriving DecidableEq, Repr

/-- A diagram edge: identifier, source and target node identifiers, style
object, animation flag, and the untouched remainder of the record. -/
structure Edge where
  id : String
  source : String
  target : String
  style : Style
  animated : Bool
  other : String
deriving DecidableEq, Repr

/-- Result of the highlighting calculation: the two sets of identifiers
(`HighlightingResult` in the source). -/
@[ext]
structure HighlightingResult where
  highlightedNodes : Finset String
  highlightedEdges : Finset String
deriving DecidableEq

/-- Configuration record (`HighlightingConfig` in the source). -/
structure HighlightingConfig where
  dimmedOpacity : ℚ
  highlightedOpacity : ℚ
  highlightedStrokeWidth : ℚ
  normalStrokeWidth : ℚ
  highlightedEdgeColor : String
  normalEdgeColor : String
deriving DecidableEq, Repr

/-- `DEFAULT_HIGHLIGHTING_CONFIG` from the source. -/
def DEFAULT_HIGHLIGHTING_CONFIG : HighlightingConfig :=
  { dimmedOpacity := 3 / 10
    highlightedOpacity := 1
    highlightedStrokeWidth := 3
    normalStrokeWidth := 2
    highlightedEdgeColor := "#3b82f6"
    normalEdgeColor := "#6b7280" }

/-- JS truthiness of the nullable selection: `null` and `""` are falsy. -/
def truthy : Option String → Bool
  | none => false
  | some s => !(s == "")

/-- Body of the `edges.forEach` loop of `calculateHighlighting`: if the edge
touches the selected node, add its id to the edge set and both endpoints to
the node set. -/
def hlStep (sid : String) (acc : HighlightingResult) (edge : Edge) : HighlightingResult :=
  if edge.source = sid ∨ edge.target = sid then
    { highlightedNodes := insert edge.target (insert edge.source acc.highlightedNodes)
      highlightedEdges := insert edge.id acc.highlightedEdges }
  else acc

/-- `calculateHighlighting` from the source: empty sets when the selection is
falsy, otherwise a single pass over the edges starting from `{sid}`. -/
def calculateHighlighting (selectedNodeId : Option String) (edges : List Edge) :
    HighlightingResult :=
  if truthy selectedNodeId then
    match selectedNodeId with
    | some sid => edges.foldl (hlStep sid) ⟨{sid}, ∅⟩
    | none => ⟨∅, ∅⟩
  else ⟨∅, ∅⟩

/-- Per-node body of `applyNodeHighlighting`: derive the opacity and spread
it into the node's style. -/
def projectNode (highlightingResult : HighlightingResult) (selectedNodeId : Option String)
    (config : HighlightingConfig) (node : Node) : Node :=
  let opacity :=
    if truthy selectedNodeId then
      if node.id ∈ highlightingResult.highlightedNodes ∨ node.type = some "background" then
        config.highlightedOpacity
      else config.dimmedOpacity
    else config.highlightedOpacity
  { node with style := styleSet node.style "opacity" (.num opacity) }

/-- `applyNodeHighlighting` from the source. -/
def applyNodeHighlighting (nodes : List Node) (highlightingResult : HighlightingResult)
    (selectedNodeId : Option String) (config : HighlightingConfig) : List Node :=
  nodes.map (projectNode highlightingResult selectedNodeId config)

/-- Per-edge body of `applyEdgeHighlighting`: derive stroke width, stroke
color, opacity and the animation flag, and spread them into the edge. -/
def projectEdge (highlightingResult : HighlightingResult) (selectedNodeId : Option String)
    (config : HighlightingConfig) (edge : Edge) : Edge :=
  let isHighlighted : Bool := edge.id ∈ highlightingResult.highlightedEdges
  let strokeWidth := if isHighlighted then config.highlightedStrokeWidth
    else config.normalStrokeWidth
  let strokeColor := if isHighlighted then config.highlightedEdgeColor
    else config.normalEdgeColor
  let opacity :=
    if truthy selectedNodeId then
      if isHighlighted then config.highlightedOpacity else config.dimmedOpacity
    else config.highlightedOpacity
  { edge with
      style := styleSet (styleSet (styleSet edge.style "strokeWidth" (.num strokeWidth))
        "stroke" (.str strokeColor)) "opacity" (.num opacity)
      animated := isHighlighted }

/-- `applyEdgeHighlighting` from the source. -/
def applyEdgeHighlighting (edges : List Edge) (highlightingResult : HighlightingResult)
    (selectedNodeId : Option String) (config : HighlightingConfig) : List Edge :=
  edges.map (projectEdge highlightingResult selectedNodeId config)

/-- Return record of the composition facade. -/
structure CompleteHighlighting where
  styledNodes : List Node
  styledEdges : List Edge
  highlightingResult : HighlightingResult
deriving DecidableEq

/-- `applyCompleteHighlighting` from the source: calculate once, then style
nodes and edges from the same snapshot. -/
def applyCompleteHighlighting (nodes : List Node) (edges : List Edge)
    (selectedNodeId : Option String) (config : HighlightingConfig) : CompleteHighlighting :=
  let highlightingResult := calculateHighlighting selectedNodeId edges
  { styledNodes := applyNodeHighlighting nodes highlightingResult selectedNodeId config
    styledEdges := applyEdgeHighlighting edges highlightingResult selectedNodeId config
    highlightingResult := highlightingResult }

/-! ### Characterization of the fold in `calculateHighlighting` -/

/-- Membership in the edge set accumulated by the fold. -/
theorem foldl_hlStep_mem_edges (sid : String) (edges : List Edge)
    (acc : HighlightingResult) (x : String) :
    x ∈ (edges.foldl (hlStep sid) acc).highlightedEdges ↔
      x ∈ acc.highlightedEdges ∨
        ∃ e ∈ edges, (e.source = sid ∨ e.target = sid) ∧ e.id = x := by
  induction edges generalizing acc with
  | nil => simp
  | cons e es ih =>
    rw [List.foldl_cons, ih]
    unfold hlStep
    by_cases h : e.source = sid ∨ e.target = sid
    · simp only [if_pos h, Finset.mem_insert, List.mem_cons]
      constructor
      · rintro ((rfl | hm) | ⟨e', he', hc, rfl⟩)
        · exact Or.inr ⟨e, Or.inl rfl, h, rfl⟩
        · exact Or.inl hm
        · exact Or.inr ⟨e', Or.inr he', hc, rfl⟩
      · rintro (hm | ⟨e', (rfl | he'), hc, rfl⟩)
        · exact Or.inl (Or.inr hm)
        · exact Or.inl (Or.inl rfl)
        · exact Or.inr ⟨e', he', hc, rfl⟩
    · simp only [if_neg h, List.mem_cons]
      constructor
      · rintro (hm | ⟨e', he', hc, rfl⟩)
        · exact Or.inl hm
        · exact Or.inr ⟨e', Or.inr he', hc, rfl⟩
      · rintro (hm | ⟨e', (rfl | he'), hc, rfl⟩)
        · exact Or.inl hm
        · exact absurd hc h
        · exact Or.inr ⟨e', he', hc, rfl⟩

/-- Membership in the node set accumulated by the fold. -/
theorem foldl_hlStep_mem_nodes (sid : String) (edges : List Edge)
    (acc : HighlightingResult) (x : String) :
    x ∈ (edges.foldl (hlStep sid) acc).highlightedNodes ↔
      x ∈ acc.highlightedNodes ∨
        ∃ e ∈ edges, (e.source = sid ∨ e.target = sid) ∧ (x = e.source ∨ x = e.target) := by
  induction edges generalizing acc with
  | nil => simp
  | cons e es ih =>
    rw [List.foldl_cons, ih]
    unfold hlStep
    by_cases h : e.source = sid ∨ e.target = sid
    · simp only [if_pos h, Finset.mem_insert, List.mem_cons]
      constructor
      · rintro ((rfl | rfl | hm) | ⟨e', he', hc, hx⟩)
        · exact Or.inr ⟨e, Or.inl rfl, h, Or.inr rfl⟩
        · exact Or.inr ⟨e, Or.inl rfl, h, Or.inl rfl⟩
        · exact Or.inl hm
        · exact Or.inr ⟨e', Or.inr he', hc, hx⟩
      · rintro (hm | ⟨e', (rfl | he'), hc, hx⟩)
        · exact Or.inl (Or.inr (Or.inr hm))
        · rcases hx with rfl | rfl
          · exact Or.inl (Or.inr (Or.inl rfl))
          · exact Or.inl (Or.inl rfl)
        · exact Or.inr ⟨e', he', hc, hx⟩
    · simp only [if_neg h, List.mem_cons]
      constructor
      · rintro (hm | ⟨e', he', hc, hx⟩)
        · exact Or.inl hm
        · exact Or.inr ⟨e', Or.inr he', hc, hx⟩
      · rintro (hm | ⟨e', (rfl | he'), hc, hx⟩)
        · exact Or.inl hm
        · exact absurd hc h
        · exact Or.inr ⟨e', he', hc, hx⟩

/-- For a truthy selection, membership in `highlightedEdges` is existence of
a connected edge in the list with that id. -/
theorem mem_highlightedEdges (sid : String) (hs : sid ≠ "") (edges : List Edge) (x : String) :
    x ∈ (calculateHighlighting (some sid) edges).highlightedEdges ↔
      ∃ e ∈ edges, (e.source = sid ∨ e.target = sid) ∧ e.id = x := by
  have ht : truthy (some sid) = true := by
    simp [truthy, hs]
  rw [calculateHighlighting, if_pos ht, foldl_hlStep_mem_edges]
  simp

/-- For a truthy selection, membership in `highlightedNodes` is being the
selected id or an endpoint of a connected edge. -/
theorem mem_highlightedNodes (sid : String) (hs : sid ≠ "") (edges : List Edge) (x : String) :
    x ∈ (calculateHighlighting (some sid) edges).highlightedNodes ↔
      x = sid ∨
        ∃ e ∈ edges, (e.source = sid ∨ e.target = sid) ∧ (x = e.source ∨ x = e.target) := by
  have ht : truthy (some sid) = true := by
    simp [truthy, hs]
  rw [calculateHighlighting, if_pos ht, foldl_hlStep_mem_nodes]
  simp

/-! ### Small lemmas about style objects -/

/-- `styleSet` sets the requested key. -/
theorem styleGet_styleSet_self (st : Style) (k : String) (v : StyleVal) :
    styleGet (styleSet st k v) k = some v := by
  induction st with
  | nil => simp [styleSet, styleGet]
  | cons p rest ih =>
    by_cases h : p.1 = k
    · simp [styleSet, h, styleGet]
    · simp [styleSet, h, styleGet, ih]

/-- `styleSet` leaves every other key unchanged. -/
theorem styleGet_styleSet_ne (st : Style) (k k' : String) (v : StyleVal) (h : k' ≠ k) :
    styleGet (styleSet st k v) k' = styleGet st k' := by
  induction st with
  | nil => simp [styleSet, styleGet, Ne.symm h]
  | cons p rest ih =>
    by_cases hp : p.1 = k
    · subst hp
      simp [styleSet, styleGet, Ne.symm h]
    · rw [styleSet, if_neg hp]
      by_cases hp' : p.1 = k'
      · rw [styleGet, if_pos hp', styleGet, if_pos hp']
      · rw [styleGet, if_neg hp', styleGet, if_neg hp', ih]

/-! ### Sample data for concrete evaluation -/

/-- A sample edge incident to node `n1`. -/
def edgeA : Edge :=
  { id := "e1", source := "n1", target := "n2", style := [], animated := false, other := "a" }

/-- A sample edge not incident to node `n1`. -/
def edgeB : Edge :=
  { id := "e2", source := "n2", target := "n3", style := [], animated := false, other := "b" }

/-- A sample node carrying a pre-existing style entry. -/
def nodeA : Node :=
  { id := "n1", type := some "custom", style := [("width", .num 10)], other := "w" }

/-- A sample highlighting result. -/
def hlSample : HighlightingResult := ⟨{"n1", "n2"}, {"e1"}⟩

/-! ### The claims -/

/-- C1: for a present (non-empty) selection and edges with pairwise-distinct
identifiers, an edge id is in `highlightedEdges` iff that edge touches the
selected node. -/
theorem calculateHighlighting_edge_iff (sid : String) (hs : sid ≠ "") (edges : List Edge)
    (huniq : edges.Pairwise (fun a b => a.id ≠ b.id)) (e : Edge) (he : e ∈ edges) :
    e.id ∈ (calculateHighlighting (some sid) edges).highlightedEdges ↔
      e.source = sid ∨ e.target = sid := by
  rw [mem_highlightedEdges sid hs]
  constructor
  · rintro ⟨f, hf, hc, hid⟩
    by_cases heq : f = e
    · subst heq; exact hc
    · have hsym : Symmetric (fun a b : Edge => a.id ≠ b.id) := fun a b hab hba => hab hba.symm
      exact absurd hid (huniq.forall hsym hf he heq)
  · intro hc
    exact ⟨e, he, hc, rfl⟩

/-- C1 witness: `edgeA` touches `"n1"`, so its id `"e1"` is highlighted. -/
theorem calculateHighlighting_edge_iff_witness :
    edgeA.id ∈ (calculateHighlighting (some "n1") [edgeA, edgeB]).highlightedEdges ↔
      edgeA.source = "n1" ∨ edgeA.target = "n1" :=
  calculateHighlighting_edge_iff "n1" (by decide) [edgeA, edgeB]
    (by simp [edgeA, edgeB]) edgeA (by simp)

/-- C2: for a present selection, a node id is in `highlightedNodes` iff it is
the selected id or an endpoint of an edge touching the selected node; the
selected id is always a member; a node with no edge to the selected node
(only multi-hop connections) is never a member. -/
theorem calculateHighlighting_node_membership (sid : String) (hs : sid ≠ "")
    (edges : List Edge) (n : String) :
    (n ∈ (calculateHighlighting (some sid) edges).highlightedNodes ↔
      n = sid ∨ ∃ e ∈ edges, (e.source = sid ∨ e.target = sid) ∧
        (n = e.source ∨ n = e.target)) ∧
    sid ∈ (calculateHighlighting (some sid) edges).highlightedNodes ∧
    (n ≠ sid →
      (∀ e ∈ edges, (e.source = sid ∨ e.target = sid) → n ≠ e.source ∧ n ≠ e.target) →
      n ∉ (calculateHighlighting (some sid) edges).highlightedNodes) := by
  refine ⟨mem_highlightedNodes sid hs edges n, ?_, ?_⟩
  · rw [mem_highlightedNodes sid hs]
    exact Or.inl rfl
  · intro hne hfar
    rw [mem_highlightedNodes sid hs]
    rintro (rfl | ⟨e, he, hc, hx⟩)
    · exact hne rfl
    · rcases hx with rfl | rfl
      · exact (hfar e he hc).1 rfl
      · exact (hfar e he hc).2 rfl

/-- C2 witness: with edges `edgeA`, `edgeB` and selection `"n1"`, the
membership characterization holds for the two-hop node `"n3"`. -/
theorem calculateHighlighting_node_membership_witness :
    ("n3" ∈ (calculateHighlighting (some "n1") [edgeA, edgeB]).highlightedNodes ↔
      "n3" = "n1" ∨ ∃ e ∈ [edgeA, edgeB], (e.source = "n1" ∨ e.target = "n1") ∧
        ("n3" = e.source ∨ "n3" = e.target)) ∧
    "n1" ∈ (calculateHighlighting (some "n1") [edgeA, edgeB]).highlightedNodes ∧
    ("n3" ≠ "n1" →
      (∀ e ∈ [edgeA, edgeB], (e.source = "n1" ∨ e.target = "n1") →
        "n3" ≠ e.source ∧ "n3" ≠ e.target) →
      "n3" ∉ (calculateHighlighting (some "n1") [edgeA, edgeB]).highlightedNodes) :=
  calculateHighlighting_node_membership "n1" (by decide) [edgeA, edgeB] "n3"

/-- C5: with an absent selection both result sets are empty and the function
returns normally (it is total). -/
theorem calculateHighlighting_none_empty (edges : List Edge) :
    (calculateHighlighting none edges).highlightedNodes = ∅ ∧
    (calculateHighlighting none edges).highlightedEdges = ∅ :=
  ⟨rfl, rfl⟩

/-- Two edge lists with the same members yield the same calculation. -/
theorem calculateHighlighting_eq_of_mem_iff (sid : String) (l₁ l₂ : List Edge)
    (h : ∀ e : Edge, e ∈ l₁ ↔ e ∈ l₂) :
    calculateHighlighting (some sid) l₁ = calculateHighlighting (some sid) l₂ := by
  by_cases hs : sid = ""
  · subst hs; rfl
  · ext x
    · rw [mem_highlightedNodes sid hs, mem_highlightedNodes sid hs]
      simp only [h]
    · rw [mem_highlightedEdges sid hs, mem_highlightedEdges sid hs]
      simp only [h]

/-- C8: the calculation is invariant under permutation of the edge list, and
appending a duplicate of an edge already present changes nothing. -/
theorem calculateHighlighting_perm_dup (sid : String) (edges edges₂ : List Edge) (e : Edge)
    (hperm : edges.Perm edges₂) (he : e ∈ edges) :
    calculateHighlighting (some sid) edges = calculateHighlighting (some sid) edges₂ ∧
    calculateHighlighting (some sid) (edges ++ [e]) = calculateHighlighting (some sid) edges := by
  constructor
  · exact calculateHighlighting_eq_of_mem_iff sid _ _ fun f => hperm.mem_iff
  · refine calculateHighlighting_eq_of_mem_iff sid _ _ fun f => ?_
    simp only [List.mem_append, List.mem_singleton]
    constructor
    · rintro (hf | rfl)
      exacts [hf, he]
    · exact Or.inl

/-- C8 witness: swapping `edgeA` and `edgeB`, and re-appending `edgeA`. -/
theorem calculateHighlighting_perm_dup_witness :
    calculateHighlighting (some "n1") [edgeA, edgeB] =
      calculateHighlighting (some "n1") [edgeB, edgeA] ∧
    calculateHighlighting (some "n1") ([edgeA, edgeB] ++ [edgeA]) =
      calculateHighlighting (some "n1") [edgeA, edgeB] :=
  calculateHighlighting_perm_dup "n1" [edgeA, edgeB] [edgeB, edgeA] edgeA
    (List.Perm.swap edgeB edgeA []) (by simp)

/-- C3: the node projector maps over the input; with an absent selection the
opacity is `highlightedOpacity`; with a present selection it is
`highlightedOpacity` for highlighted or background nodes and `dimmedOpacity`
otherwise. -/
theorem applyNodeHighlighting_opacity (nodes : List Node) (hl : HighlightingResult)
    (sel : Option String) (config : HighlightingConfig) (node : Node) :
    applyNodeHighlighting nodes hl sel config = nodes.map (projectNode hl sel config) ∧
    (sel = none →
      styleGet (projectNode hl sel config node).style "opacity" =
        some (.num config.highlightedOpacity)) ∧
    (∀ sid : String, sel = some sid → sid ≠ "" →
      styleGet (projectNode hl sel config node).style "opacity" =
        some (.num (if node.id ∈ hl.highlightedNodes ∨ node.type = some "background" then
          config.highlightedOpacity else config.dimmedOpacity))) := by
  refine ⟨rfl, ?_, ?_⟩
  · rintro rfl
    simp [projectNode, truthy, styleGet_styleSet_self]
  · rintro sid rfl hs
    have ht : truthy (some sid) = true := by simp [truthy, hs]
    simp [projectNode, ht, styleGet_styleSet_self]

/-- C3 witness: node `nodeA` under selection `"n1"` with `hlSample`. -/
theorem applyNodeHighlighting_opacity_witness :
    applyNodeHighlighting [nodeA] hlSample (some "n1") DEFAULT_HIGHLIGHTING_CONFIG =
      [nodeA].map (projectNode hlSample (some "n1") DEFAULT_HIGHLIGHTING_CONFIG) ∧
    (some "n1" = none →
      styleGet (projectNode hlSample (some "n1") DEFAULT_HIGHLIGHTING_CONFIG nodeA).style
          "opacity" =
        some (.num DEFAULT_HIGHLIGHTING_CONFIG.highlightedOpacity)) ∧
    (∀ sid : String, some "n1" = some sid → sid ≠ "" →
      styleGet (projectNode hlSample (some "n1") DEFAULT_HIGHLIGHTING_CONFIG nodeA).style
          "opacity" =
        some (.num (if nodeA.id ∈ hlSample.highlightedNodes ∨ nodeA.type = some "background" then
          DEFAULT_HIGHLIGHTING_CONFIG.highlightedOpacity
          else DEFAULT_HIGHLIGHTING_CONFIG.dimmedOpacity))) :=
  applyNodeHighlighting_opacity [nodeA] hlSample (some "n1") DEFAULT_HIGHLIGHTING_CONFIG nodeA

/-- C4: the edge projector maps over the input; stroke width, stroke color
and the animation flag are selected by edge-id membership in
`highlightedEdges`; opacity is full with an absent selection, and otherwise
full for highlighted edges and dimmed for the rest. -/
theorem applyEdgeHighlighting_styling (edges : List Edge) (hl : HighlightingResult)
    (sel : Option String) (config : HighlightingConfig) (edge : Edge) :
    applyEdgeHighlighting edges hl sel config = edges.map (projectEdge hl sel config) ∧
    styleGet (projectEdge hl sel config edge).style "strokeWidth" =
      some (.num (if edge.id ∈ hl.highlightedEdges then config.highlightedStrokeWidth
        else config.normalStrokeWidth)) ∧
    styleGet (projectEdge hl sel config edge).style "stroke" =
      some (.str (if edge.id ∈ hl.highlightedEdges then config.highlightedEdgeColor
        else config.normalEdgeColor)) ∧
    (sel = none →
      styleGet (projectEdge hl sel config edge).style "opacity" =
        some (.num config.highlightedOpacity)) ∧
    (∀ sid : String, sel = some sid → sid ≠ "" →
      styleGet (projectEdge hl sel config edge).style "opacity" =
        some (.num (if edge.id ∈ hl.highlightedEdges then config.highlightedOpacity
          else config.dimmedOpacity))) ∧
    ((projectEdge hl sel config edge).animated = true ↔ edge.id ∈ hl.highlightedEdges) := by
  have hsw : styleGet (projectEdge hl sel config edge).style "strokeWidth" =
      some (.num (if edge.id ∈ hl.highlightedEdges then config.highlightedStrokeWidth
        else config.normalStrokeWidth)) := by
    simp only [projectEdge]
    rw [styleGet_styleSet_ne _ _ _ _ (by decide), styleGet_styleSet_ne _ _ _ _ (by decide),
      styleGet_styleSet_self]
    by_cases h : edge.id ∈ hl.highlightedEdges <;> simp [h]
  have hsc : styleGet (projectEdge hl sel config edge).style "stroke" =
      some (.str (if edge.id ∈ hl.highlightedEdges then config.highlightedEdgeColor
        else config.normalEdgeColor)) := by
    simp only [projectEdge]
    rw [styleGet_styleSet_ne _ _ _ _ (by decide), styleGet_styleSet_self]
    by_cases h : edge.id ∈ hl.highlightedEdges <;> simp [h]
  refine ⟨rfl, hsw, hsc, ?_, ?_, ?_⟩
  · rintro rfl
    simp only [projectEdge]
    rw [styleGet_styleSet_self]
    simp [truthy]
  · rintro sid rfl hs
    have ht : truthy (some sid) = true := by simp [truthy, hs]
    simp only [projectEdge]
    rw [styleGet_styleSet_self]
    by_cases h : edge.id ∈ hl.highlightedEdges <;> simp [h, ht]
  · simp only [projectEdge]
    by_cases h : edge.id ∈ hl.highlightedEdges <;> simp [h]

/-- C4 witness: edge `edgeA` under selection `"n1"` with `hlSample`. -/
theorem applyEdgeHighlighting_styling_witness :
    applyEdgeHighlighting [edgeA] hlSample (some "n1") DEFAULT_HIGHLIGHTING_CONFIG =
      [edgeA].map (projectEdge hlSample (some "n1") DEFAULT_HIGHLIGHTING_CONFIG) ∧
    styleGet (projectEdge hlSample (some "n1") DEFAULT_HIGHLIGHTING_CONFIG edgeA).style
        "strokeWidth" =
      some (.num (if edgeA.id ∈ hlSample.highlightedEdges then
        DEFAULT_HIGHLIGHTING_CONFIG.highlightedStrokeWidth
        else DEFAULT_HIGHLIGHTING_CONFIG.normalStrokeWidth)) ∧
    styleGet (projectEdge hlSample (some "n1") DEFAULT_HIGHLIGHTING_CONFIG edgeA).style
        "stroke" =
      some (.str (if edgeA.id ∈ hlSample.highlightedEdges then
        DEFAULT_HIGHLIGHTING_CONFIG.highlightedEdgeColor
        else DEFAULT_HIGHLIGHTING_CONFIG.normalEdgeColor)) ∧
    (some "n1" = none →
      styleGet (projectEdge hlSample (some "n1") DEFAULT_HIGHLIGHTING_CONFIG edgeA).style
          "opacity" =
        some (.num DEFAULT_HIGHLIGHTING_CONFIG.highlightedOpacity)) ∧
    (∀ sid : String, some "n1" = some sid → sid ≠ "" →
      styleGet (projectEdge hlSample (some "n1") DEFAULT_HIGHLIGHTING_CONFIG edgeA).style
          "opacity" =
        some (.num (if edgeA.id ∈ hlSample.highlightedEdges then
          DEFAULT_HIGHLIGHTING_CONFIG.highlightedOpacity
          else DEFAULT_HIGHLIGHTING_CONFIG.dimmedOpacity))) ∧
    ((projectEdge hlSample (some "n1") DEFAULT_HIGHLIGHTING_CONFIG edgeA).animated = true ↔
      edgeA.id ∈ hlSample.highlightedEdges) :=
  applyEdgeHighlighting_styling [edgeA] hlSample (some "n1") DEFAULT_HIGHLIGHTING_CONFIG edgeA

/-- C6: both projectors preserve the length and order of the input and leave
every non-style field (node id, category, payload; edge id, source, target,
payload) unchanged. -/
theorem highlighting_preserves_core_fields (nodes : List Node) (edges : List Edge)
    (hl : HighlightingResult) (sel : Option String) (config : HighlightingConfig) :
    (applyNodeHighlighting nodes hl sel config).length = nodes.length ∧
    (applyNodeHighlighting nodes hl sel config).map (fun n => (n.id, n.type, n.other)) =
      nodes.map (fun n => (n.id, n.type, n.other)) ∧
    (applyEdgeHighlighting edges hl sel config).length = edges.length ∧
    (applyEdgeHighlighting edges hl sel config).map
        (fun e => (e.id, e.source, e.target, e.other)) =
      edges.map (fun e => (e.id, e.source, e.target, e.other)) := by
  refine ⟨by simp [applyNodeHighlighting], ?_, by simp [applyEdgeHighlighting], ?_⟩
  · simp [applyNodeHighlighting, projectNode]
  · simp [applyEdgeHighlighting, projectEdge]

/-- C7: the composition facade is deterministic — deep-equal inputs give
deep-equal outputs (the embedding is a pure function, so the inputs are
never mutated). -/
theorem applyCompleteHighlighting_deterministic (nodes₁ nodes₂ : List Node)
    (edges₁ edges₂ : List Edge) (sel₁ sel₂ : Option String)
    (config₁ config₂ : HighlightingConfig)
    (hn : nodes₁ = nodes₂) (he : edges₁ = edges₂) (hs : sel₁ = sel₂) (hc : config₁ = config₂) :
    applyCompleteHighlighting nodes₁ edges₁ sel₁ config₁ =
      applyCompleteHighlighting nodes₂ edges₂ sel₂ config₂ := by
  subst hn
  subst he
  subst hs
  subst hc
  rfl

/-- C7 witness: two calls on the same concrete inputs agree. -/
theorem applyCompleteHighlighting_deterministic_witness :
    applyCompleteHighlighting [nodeA] [edgeA] (some "n1") DEFAULT_HIGHLIGHTING_CONFIG =
      applyCompleteHighlighting [nodeA] [edgeA] (some "n1") DEFAULT_HIGHLIGHTING_CONFIG :=
  applyCompleteHighlighting_deterministic [nodeA] [nodeA] [edgeA] [edgeA]
    (some "n1") (some "n1") DEFAULT_HIGHLIGHTING_CONFIG DEFAULT_HIGHLIGHTING_CONFIG
    rfl rfl rfl rfl

/-- C9: the empty-string selection behaves exactly like the absent selection
in all four functions: same results, empty highlight sets, and full opacity
on every styled node and edge. -/
theorem empty_selection_eq_none (nodes : List Node) (edges : List Edge)
    (hl : HighlightingResult) (config : HighlightingConfig) :
    calculateHighlighting (some "") edges = calculateHighlighting none edges ∧
    applyNodeHighlighting nodes hl (some "") config =
      applyNodeHighlighting nodes hl none config ∧
    applyEdgeHighlighting edges hl (some "") config =
      applyEdgeHighlighting edges hl none config ∧
    applyCompleteHighlighting nodes edges (some "") config =
      applyCompleteHighlighting nodes edges none config ∧
    (calculateHighlighting (some "") edges).highlightedNodes = ∅ ∧
    (calculateHighlighting (some "") edges).highlightedEdges = ∅ ∧
    (applyNodeHighlighting nodes hl (some "") config).map
        (fun n => styleGet n.style "opacity") =
      nodes.map (fun _ => some (.num config.highlightedOpacity)) ∧
    (applyEdgeHighlighting edges hl (some "") config).map
        (fun e => styleGet e.style "opacity") =
      edges.map (fun _ => some (.num config.highlightedOpacity)) := by
  refine ⟨rfl, rfl, rfl, rfl, rfl, rfl, ?_, ?_⟩
  · simp only [applyNodeHighlighting, List.map_map]
    refine List.map_congr_left fun n hn => ?_
    simp only [Function.comp_apply, projectNode]
    rw [styleGet_styleSet_self]
    simp [truthy]
  · simp only [applyEdgeHighlighting, List.map_map]
    refine List.map_congr_left fun e he => ?_
    simp only [Function.comp_apply, projectEdge]
    rw [styleGet_styleSet_self]
    simp [truthy]

/-- C10: for any style key the projectors do not write — anything other than
`"opacity"` for nodes, and other than `"strokeWidth"`, `"stroke"`,
`"opacity"` for edges — the output style entry equals the input style
entry. -/
theorem style_frame_other_keys (nodes : List Node) (edges : List Edge)
    (hl : HighlightingResult) (sel : Option String) (config : HighlightingConfig)
    (k : String) :
    (k ≠ "opacity" →
      (applyNodeHighlighting nodes hl sel config).map (fun n => styleGet n.style k) =
        nodes.map (fun n => styleGet n.style k)) ∧
    (k ≠ "opacity" → k ≠ "stroke" → k ≠ "strokeWidth" →
      (applyEdgeHighlighting edges hl sel config).map (fun e => styleGet e.style k) =
        edges.map (fun e => styleGet e.style k)) := by
  constructor
  · intro h1
    simp only [applyNodeHighlighting, List.map_map]
    refine List.map_congr_left fun n hn => ?_
    simp only [Function.comp_apply, projectNode]
    rw [styleGet_styleSet_ne _ _ _ _ h1]
  · intro h1 h2 h3
    simp only [applyEdgeHighlighting, List.map_map]
    refine List.map_congr_left fun e he => ?_
    simp only [Function.comp_apply, projectEdge]
    rw [styleGet_styleSet_ne _ _ _ _ h1, styleGet_styleSet_ne _ _ _ _ h2,
      styleGet_styleSet_ne _ _ _ _ h3]

/-- C10 witness: the pre-existing `"width"` entry of `nodeA` survives both
projections. -/
theorem style_frame_other_keys_witness :
    (("width" : String) ≠ "opacity" →
      (applyNodeHighlighting [nodeA] hlSample (some "n1") DEFAULT_HIGHLIGHTING_CONFIG).map
          (fun n => styleGet n.style "width") =
        [nodeA].map (fun n => styleGet n.style "width")) ∧
    (("width" : String) ≠ "opacity" → ("width" : String) ≠ "stroke" →
      ("width" : String) ≠ "strokeWidth" →
      (applyEdgeHighlighting [edgeA] hlSample (some "n1") DEFAULT_HIGHLIGHTING_CONFIG).map
          (fun e => styleGet e.style "width") =
        [edgeA].map (fun e => styleGet e.style "width")) :=
  style_frame_other_keys [nodeA] [edgeA] hlSample (some "n1")
    DEFAULT_HIGHLIGHTING_CONFIG "width"
